import Mathlib

/-!
Verification of the weak-point combat core of Cataclysm-DDA (src/weakpoint.h).

The repository sources provide the header `src/weakpoint.h`, which declares the
data model (weakpoint_attack, weakpoint_effect, weakpoint_difficulty,
weakpoint_family, weakpoint_families, weakpoint, weakpoints) and the operations
on it.  The companion implementation file (weakpoint.cpp) is not among the
sources, so every operation body below is modelled from the natural-language
specification, faithful to its words; the structure layouts follow the header.

Conventions of the embedding:
- C++ `float` values are modelled as exact rationals (`Rat`).
- Fixed arrays indexed by `damage_type` / `attack_type` are modelled as total
  functions out of the index type.
- External collaborators (Creature, Character, the random source) are modelled
  by small structures exposing exactly the narrow interfaces the spec lists:
  status-effect membership, max health, proficiency membership, and injectable
  uniform draws.
- Effect application returns the command it would send to the external
  status-effect subsystem (`Option effect_application`); `none` means no state
  is mutated.
-/

set_option autoImplicit false

/-- Modelled from the spec: `damage.h` is not among the sources; the number of
damage types is abstracted as a fixed positive count, one index per type. -/
def damage_type_num : Nat := 10

/-- Index type standing for `damage_type` of the (absent) damage.h. -/
abbrev DamageType := Fin damage_type_num

/-- Attack categories, from `weakpoint_attack::attack_type` in src/weakpoint.h. -/
inductive attack_type where
  | NONE
  | MELEE_BASH
  | MELEE_CUT
  | MELEE_STAB
  | PROJECTILE
deriving DecidableEq

/-- Modelled from the spec: the target creature, exposing only the narrow
interface this core consumes — current status effects and max health
(`Creature` is an external collaborator, its class is not in the sources). -/
structure Creature where
  effects : List String
  max_health : Rat

/-- Modelled from the spec: the attacker, exposing only proficiency membership
(`Character` is an external collaborator, its class is not in the sources). -/
structure Character where
  proficiencies : List String
deriving DecidableEq

/-- Does the character hold the named proficiency? -/
abbrev Character.has_proficiency (c : Character) (p : String) : Prop :=
  p ∈ c.proficiencies

/-- Learn a proficiency (external command; modelled as adding it to the set). -/
def Character.learn (c : Character) (p : String) : Character :=
  { proficiencies := p :: c.proficiencies }

/-- Information about an attack on a weak point, from `weakpoint_attack` in
src/weakpoint.h.  The non-owning source and weapon references are dropped:
no modelled operation consumes them; the target is kept for the
required-effects filter. -/
structure weakpoint_attack where
  target : Creature
  type : attack_type
  is_thrown : Bool
  is_crit : Bool
  wp_skill : Rat

/-- An effect that a weakpoint can cause, from `weakpoint_effect` in
src/weakpoint.h. -/
structure weakpoint_effect where
  effect : String
  chance : Rat
  permanent : Bool
  duration : Int × Int
  intensity : Int × Int
  damage_required : Rat × Rat
  message : String

/-- The command an applied weak-point effect sends to the external
status-effect subsystem: effect id, duration (`none` = infinite, requested by
permanent effects) and intensity. -/
structure effect_application where
  effect : String
  duration : Option Int
  intensity : Int
deriving DecidableEq

/-- Modelled from the spec: the body of `weakpoint_effect::apply_to` is in the
missing weakpoint.cpp.  Computes the damage fraction
`total_damage / target.max_health`; if the fraction falls outside
`[damage_required.min, damage_required.max]` the effect does not apply.
Otherwise it draws against `chance`, samples duration and intensity from their
ranges (permanent effects request infinite duration instead), and returns the
application command for the external status-effect subsystem; `none` means
nothing is applied and no state is mutated. -/
def weakpoint_effect.apply_to (e : weakpoint_effect) (target : Creature)
    (total_damage : Int) (attack : weakpoint_attack)
    (chance_roll : Rat) (dur_roll int_roll : Int) : Option effect_application :=
  if (total_damage : Rat) / target.max_health < e.damage_required.1 ∨
      e.damage_required.2 < (total_damage : Rat) / target.max_health then
    none
  else if e.chance ≤ chance_roll then
    none
  else
    some { effect := e.effect
         , duration :=
             if e.permanent then none
             else some (min e.duration.2 (max e.duration.1 dur_roll))
         , intensity := min e.intensity.2 (max e.intensity.1 int_roll) }

/-- Per-attack-category scalar table, from `weakpoint_difficulty` in
src/weakpoint.h (a fixed array indexed by attack type, modelled as a total
function). -/
structure weakpoint_difficulty where
  difficulty : attack_type → Rat

/-- Modelled from the spec: the body of `weakpoint_difficulty::of` is in the
missing weakpoint.cpp; returns the entry indexed by the attack's category. -/
def weakpoint_difficulty.of (wd : weakpoint_difficulty)
    (attack : weakpoint_attack) : Rat :=
  wd.difficulty attack.type

/-- A weak-point family, from `weakpoint_family` in src/weakpoint.h. -/
structure weakpoint_family where
  id : String
  proficiency : String
  bonus : Option Rat
  penalty : Option Rat

/-- Modelled from the spec: the body of `weakpoint_family::modifier` is in the
missing weakpoint.cpp.  Returns `bonus` if the attacker holds the named
proficiency, else `-penalty`; a missing bonus or penalty contributes 0. -/
def weakpoint_family.modifier (f : weakpoint_family) (attacker : Character) : Rat :=
  if attacker.has_proficiency f.proficiency then f.bonus.getD 0
  else -(f.penalty.getD 0)

/-- Modelled from the spec: one family's share of a practice call.  A learner
who already holds the proficiency gains nothing further; otherwise the
domain-specific chance draw `gain` (supplied by the injectable random source)
decides whether the proficiency is newly learned.  Returns the updated learner
and whether a proficiency transitioned from unlearned to learned. -/
def weakpoint_family.practice (f : weakpoint_family) (learner : Character)
    (gain : String → Bool) : Character × Bool :=
  if learner.has_proficiency f.proficiency then (learner, false)
  else if gain f.proficiency then (learner.learn f.proficiency, true)
  else (learner, false)

/-- A set of weak-point families, from `weakpoint_families` in src/weakpoint.h. -/
structure weakpoint_families where
  families : List weakpoint_family

/-- Modelled from the spec: `weakpoint_families::modifier` sums the modifier of
every family in the set. -/
def weakpoint_families.modifier (fams : weakpoint_families)
    (attacker : Character) : Rat :=
  fams.families.foldl (fun acc f => acc + f.modifier attacker) 0

/-- One step of the practice fold: practice one family on the accumulated
learner and accumulate whether any proficiency has been newly learned. -/
def practice_step (gain : String → Bool) (acc : Character × Bool)
    (f : weakpoint_family) : Character × Bool :=
  ((f.practice acc.1 gain).1, acc.2 || (f.practice acc.1 gain).2)

/-- Modelled from the spec: the common core of the practice operations.
Applies practice for every family in the set, threading the learner through,
and returns true iff at least one proficiency transitioned from unlearned to
learned during the call. -/
def weakpoint_families.practice (fams : weakpoint_families) (learner : Character)
    (gain : String → Bool) : Character × Bool :=
  fams.families.foldl (practice_step gain) (learner, false)

/-- Modelled from the spec: on-hit practice; the domain-specific chance is
abstracted into the `gain` draw of the injectable random source. -/
def weakpoint_families.practice_hit (fams : weakpoint_families)
    (learner : Character) (gain : String → Bool) : Character × Bool :=
  fams.practice learner gain

/-- Modelled from the spec: on-kill practice. -/
def weakpoint_families.practice_kill (fams : weakpoint_families)
    (learner : Character) (gain : String → Bool) : Character × Bool :=
  fams.practice learner gain

/-- Modelled from the spec: on-dissect practice. -/
def weakpoint_families.practice_dissect (fams : weakpoint_families)
    (learner : Character) (gain : String → Bool) : Character × Bool :=
  fams.practice learner gain

/-- A weak point, from `weakpoint` in src/weakpoint.h: id, name, coverage
weight, the four per-damage-type arrays, required pre-existing effects, the
effects it can trigger, and its two difficulty tables. -/
structure weakpoint where
  id : String
  name : String
  coverage : Rat
  armor_mult : DamageType → Rat
  armor_penalty : DamageType → Rat
  damage_mult : DamageType → Rat
  crit_mult : DamageType → Rat
  required_effects : List String
  effects : List weakpoint_effect
  coverage_mult : weakpoint_difficulty
  difficulty : weakpoint_difficulty

/-- One damage-type sub-instance of a damage instance (`damage_unit` of the
absent damage.h): its type and amount. -/
structure damage_unit where
  type : DamageType
  amount : Rat

/-- A composite damage instance: its list of sub-instances. -/
abbrev damage_instance := List damage_unit

/-- Per-damage-type resistance values (`resistances` of the absent damage.h). -/
structure resistances where
  resist_vals : DamageType → Rat

/-- Modelled from the spec: the body of `weakpoint::apply_to(resistances&)` is
in the missing weakpoint.cpp.  For each damage type, multiplies the existing
resistance by `armor_mult[type]`, subtracts `armor_penalty[type]`, and clamps
the result to be non-negative. -/
def weakpoint.apply_to_res (wp : weakpoint) (r : resistances) : resistances :=
  ⟨fun dt => max 0 (r.resist_vals dt * wp.armor_mult dt - wp.armor_penalty dt)⟩

/-- Modelled from the spec: the body of
`weakpoint::apply_to(damage_instance&, bool)` is in the missing weakpoint.cpp.
For each damage-type sub-instance, multiplies its amount by
`damage_mult[type]`, or by `crit_mult[type]` instead if the attack is a crit. -/
def weakpoint.apply_to_damage (wp : weakpoint) (damage : damage_instance)
    (is_crit : Bool) : damage_instance :=
  damage.map fun du =>
    { du with amount :=
        du.amount * (if is_crit then wp.crit_mult du.type else wp.damage_mult du.type) }

/-- Modelled from the spec: the body of `weakpoint::hit_chance` is in the
missing weakpoint.cpp; the base probability (the weight used in the weighted
draw) equals `coverage * coverage_mult.of(attack) / 100`. -/
def weakpoint.hit_chance (wp : weakpoint) (attack : weakpoint_attack) : Rat :=
  wp.coverage * wp.coverage_mult.of attack / 100

/-- Modelled from the spec: the required-effects filter of the selection
algorithm — a weak point is kept only if all of its `required_effects` are
currently present on the target (external status query). -/
def weakpoint.eligible (wp : weakpoint) (attack : weakpoint_attack) : Bool :=
  decide (∀ e ∈ wp.required_effects, e ∈ attack.target.effects)

/-- Modelled from the spec: the difficulty gate of the selection algorithm.
The effective skill (the descriptor's cached `wp_skill`, which
`compute_wp_skill` derives from base skill and family modifiers) minus
`difficulty.of(attack)` is compared against a roll of the injectable random
source; the gate passes iff the roll does not exceed the margin. -/
def weakpoint.gate_passes (wp : weakpoint) (attack : weakpoint_attack)
    (roll : Rat) : Bool :=
  decide (roll ≤ attack.wp_skill - wp.difficulty.of attack)

/-- A raw weak-point definition record, as parsed by the external structured
data reader (`JsonObject`): optional fields that `weakpoint::load` defaults. -/
structure weakpoint_def where
  id : Option String := none
  name : String := ""
  coverage : Option Rat := none
  armor_mult : Option (DamageType → Rat) := none
  armor_penalty : Option (DamageType → Rat) := none
  damage_mult : Option (DamageType → Rat) := none
  crit_mult : Option (DamageType → Rat) := none
  required_effects : List String := []
  effects : List weakpoint_effect := []
  coverage_mult : Option weakpoint_difficulty := none
  difficulty : Option weakpoint_difficulty := none

/-- Modelled from the spec: the body of `weakpoint::load` is in the missing
weakpoint.cpp.  Builds a weak point from a definition record; the id defaults
to the name when not provided (header: "ID of the weakpoint. Equal to the
name, if not provided."), coverage defaults to 100, the per-damage-type arrays
are fully populated with identity values when omitted, and no record is
rejected for having zero coverage. -/
def weakpoint.load (jo : weakpoint_def) : weakpoint :=
  { id := jo.id.getD jo.name
  , name := jo.name
  , coverage := jo.coverage.getD 100
  , armor_mult := jo.armor_mult.getD fun _ => 1
  , armor_penalty := jo.armor_penalty.getD fun _ => 0
  , damage_mult := jo.damage_mult.getD fun _ => 1
  , crit_mult := jo.crit_mult.getD fun _ => 1
  , required_effects := jo.required_effects
  , effects := jo.effects
  , coverage_mult := jo.coverage_mult.getD ⟨fun _ => 1⟩
  , difficulty := jo.difficulty.getD ⟨fun _ => 0⟩ }

/-- The synthesized default weak point (the `weakpoint()` constructor):
identity multipliers, empty id and name, unconditionally eligible. -/
def weakpointDefault : weakpoint :=
  weakpoint.load {}

/-- Modelled from the spec: the injectable random source of one selection —
one gate roll per listed weak point (indexed by position) and one draw over
the 100-unit probability space for the weighted draw. -/
structure rand_source where
  gate_roll : Nat → Rat
  draw_roll : Rat

/-- A set of weak points plus the default weak point, from `weakpoints` in
src/weakpoint.h. -/
structure weakpoints where
  weakpoint_list : List weakpoint
  default_weakpoint : weakpoint

/-- Modelled from the spec: steps 1 and 2 of the selection algorithm — filter
out weak points whose required effects are not all present on the target, then
exclude (not merely down-weight) those that fail their difficulty gate for
this attack's rolls.  `i` is the position of the head of `l` in the full
list, used to index the gate rolls. -/
def eligible_from (attack : weakpoint_attack) (rng : rand_source) :
    Nat → List weakpoint → List weakpoint
  | _, [] => []
  | i, wp :: rest =>
    if wp.eligible attack && wp.gate_passes attack (rng.gate_roll i) then
      wp :: eligible_from attack rng (i + 1) rest
    else
      eligible_from attack rng (i + 1) rest

/-- The weak points of the set that survive filtering and gating for this
attack and these rolls. -/
def weakpoints.eligible_list (wps : weakpoints) (attack : weakpoint_attack)
    (rng : rand_source) : List weakpoint :=
  eligible_from attack rng 0 wps.weakpoint_list

/-- Modelled from the spec: step 3 of the selection algorithm — the weighted
draw.  The draw roll `idx` falls in the 100-unit probability space; walking
the eligible list, a weak point is chosen when the remaining roll falls inside
its `hit_chance` weight, otherwise its weight is consumed and the walk
continues.  `none` means the total weight did not consume the full probability
space at this roll (the draw "misses"). -/
def select_draw (attack : weakpoint_attack) :
    List weakpoint → Rat → Option weakpoint
  | [], _ => none
  | wp :: rest, idx =>
    if idx < wp.hit_chance attack then some wp
    else select_draw attack rest (idx - wp.hit_chance attack)

/-- Modelled from the spec: the body of `weakpoints::select_weakpoint` is in
the missing weakpoint.cpp.  Filter by required effects, gate by difficulty,
draw one survivor with probability proportional to its hit chance, and return
the internal default weak point whenever the draw misses or nothing was
eligible. -/
def weakpoints.select_weakpoint (wps : weakpoints) (attack : weakpoint_attack)
    (rng : rand_source) : weakpoint :=
  (select_draw attack (wps.eligible_list attack rng) rng.draw_roll).getD
    wps.default_weakpoint

/-- Modelled from the spec: `weakpoints::clear` empties the whole set. -/
def weakpoints.clear (wps : weakpoints) : weakpoints :=
  { wps with weakpoint_list := [] }

/-- Modelled from the spec: the body of `weakpoints::load` is in the missing
weakpoint.cpp; loading a definition array merges by appending each loaded
record to the list. -/
def weakpoints.load (wps : weakpoints) (ja : List weakpoint_def) : weakpoints :=
  { wps with weakpoint_list := wps.weakpoint_list ++ ja.map weakpoint.load }

/-- The ids denoted by a removal array: each record is loaded and its id
taken. -/
def removed_ids (ja : List weakpoint_def) : List String :=
  ja.map fun jo => (weakpoint.load jo).id

/-- Modelled from the spec: the body of `weakpoints::remove` is in the missing
weakpoint.cpp; deletes from the list every weak point whose id occurs in the
removal array's id list. -/
def weakpoints.remove (wps : weakpoints) (ja : List weakpoint_def) : weakpoints :=
  { wps with weakpoint_list :=
      wps.weakpoint_list.filter fun wp => decide (wp.id ∉ removed_ids ja) }

/- Concrete instances used by the witness theorems. -/

/-- A concrete target creature: has the "downed" effect, max health 100. -/
def creature0 : Creature :=
  { effects := ["downed"], max_health := 100 }

/-- A concrete melee-stab attack on `creature0` with weak-point skill 5. -/
def attack0 : weakpoint_attack :=
  { target := creature0
  , type := attack_type.MELEE_STAB
  , is_thrown := false
  , is_crit := false
  , wp_skill := 5 }

/-- A concrete random source: gate rolls 0, draw roll 50. -/
def rng0 : rand_source :=
  { gate_roll := fun _ => 0, draw_roll := 50 }

/-- A concrete weak-point definition with id "a". -/
def wp_def_a : weakpoint_def :=
  { id := some "a", name := "a" }

/-- A concrete weak-point definition with id "b". -/
def wp_def_b : weakpoint_def :=
  { id := some "b", name := "b" }

/-- A concrete definition requiring the "bleeding" effect. -/
def wp_def_bleed : weakpoint_def :=
  { id := some "arm", name := "arm", required_effects := ["bleeding"] }

/-- A concrete definition with zero coverage. -/
def wp_def_zero : weakpoint_def :=
  { id := some "z", name := "z", coverage := some 0 }

/-- The zero-coverage weak point loaded from `wp_def_zero`. -/
def wp_zero : weakpoint :=
  weakpoint.load wp_def_zero

/-- An empty weak-point set. -/
def wps0 : weakpoints :=
  { weakpoint_list := [], default_weakpoint := weakpointDefault }

/-- A set whose one weak point has id "a". -/
def wps_a : weakpoints :=
  { weakpoint_list := [weakpoint.load wp_def_a], default_weakpoint := weakpointDefault }

/-- A set whose one weak point has id "b". -/
def wps_b : weakpoints :=
  { weakpoint_list := [weakpoint.load wp_def_b], default_weakpoint := weakpointDefault }

/-- A set whose one weak point requires the "bleeding" effect. -/
def wps_bleed : weakpoints :=
  { weakpoint_list := [weakpoint.load wp_def_bleed], default_weakpoint := weakpointDefault }

/-- A set containing the zero-coverage weak point. -/
def wps_zero : weakpoints :=
  { weakpoint_list := [wp_zero], default_weakpoint := weakpointDefault }

/-- A concrete weak-point effect requiring damage fraction in [1/2, 1]. -/
def effect0 : weakpoint_effect :=
  { effect := "bleed"
  , chance := 1
  , permanent := false
  , duration := (1, 10)
  , intensity := (1, 3)
  , damage_required := (1/2, 1)
  , message := "You hit the weak point." }

/-- A concrete family tied to proficiency "p1" with bonus 2, penalty 3. -/
def family0 : weakpoint_family :=
  { id := "f1", proficiency := "p1", bonus := some 2, penalty := some 3 }

/-- A family set holding only `family0`. -/
def fams0 : weakpoint_families :=
  { families := [family0] }

/-- A learner who already holds proficiency "p1". -/
def learner0 : Character :=
  { proficiencies := ["p1"] }

/-- A weak point with damage multiplier 2 and crit multiplier 3 everywhere. -/
def wpA : weakpoint :=
  { weakpointDefault with damage_mult := fun _ => 2, crit_mult := fun _ => 3 }

/-- A weak point with damage multiplier 7 and crit multiplier 3 everywhere:
it differs from `wpA` only in `damage_mult`. -/
def wpB : weakpoint :=
  { weakpointDefault with damage_mult := fun _ => 7, crit_mult := fun _ => 3 }

/-- A one-element damage instance with amount 10. -/
def damage0 : damage_instance :=
  [{ type := ⟨0, by decide⟩, amount := 10 }]

/-- A definition record supplying a name but no id. -/
def wp_def_eye : weakpoint_def :=
  { name := "eye" }

/-! ### Helper lemmas about the weighted draw and the eligibility filter -/

/-- A weak point returned by the weighted draw is a member of the drawn list. -/
theorem select_draw_mem {attack : weakpoint_attack} :
    ∀ {l : List weakpoint} {idx : Rat} {wp : weakpoint},
      select_draw attack l idx = some wp → wp ∈ l := by
  intro l
  induction l with
  | nil =>
    intro idx wp h
    simp [select_draw] at h
  | cons hd tl ih =>
    intro idx wp h
    simp only [select_draw] at h
    by_cases hc : idx < hd.hit_chance attack
    · rw [if_pos hc] at h
      injection h with h
      exact h ▸ List.mem_cons_self _ _
    · rw [if_neg hc] at h
      exact List.mem_cons_of_mem _ (ih h)

/-- With a non-negative draw roll, the weighted draw only ever selects a weak
point with strictly positive hit chance. -/
theorem select_draw_pos {attack : weakpoint_attack} :
    ∀ {l : List weakpoint} {idx : Rat} {wp : weakpoint},
      0 ≤ idx → select_draw attack l idx = some wp →
      0 < wp.hit_chance attack := by
  intro l
  induction l with
  | nil =>
    intro idx wp _ h
    simp [select_draw] at h
  | cons hd tl ih =>
    intro idx wp h0 h
    simp only [select_draw] at h
    by_cases hc : idx < hd.hit_chance attack
    · rw [if_pos hc] at h
      injection h with h
      exact h ▸ lt_of_le_of_lt h0 hc
    · rw [if_neg hc] at h
      exact ih (by linarith [not_lt.mp hc]) h

/-- When the total weight of the list does not reach the draw roll (the draw
"misses"), the weighted draw selects nothing. -/
theorem select_draw_none {attack : weakpoint_attack} :
    ∀ {l : List weakpoint} {idx : Rat},
      (∀ wp ∈ l, 0 ≤ wp.hit_chance attack) →
      (l.map fun wp => wp.hit_chance attack).sum ≤ idx →
      select_draw attack l idx = none := by
  intro l
  induction l with
  | nil =>
    intro idx _ _
    rfl
  | cons hd tl ih =>
    intro idx hnn hsum
    simp only [List.map_cons, List.sum_cons] at hsum
    have hrest : 0 ≤ (tl.map fun wp => wp.hit_chance attack).sum := by
      apply List.sum_nonneg
      intro x hx
      obtain ⟨wp, hwp, rfl⟩ := List.mem_map.mp hx
      exact hnn wp (List.mem_cons_of_mem _ hwp)
    have hhd : hd.hit_chance attack ≤ idx := by linarith
    simp only [select_draw]
    rw [if_neg (not_lt.mpr hhd)]
    exact ih (fun wp hwp => hnn wp (List.mem_cons_of_mem _ hwp)) (by linarith)

/-- A weak point surviving filtering and gating is a member of the original
list and passes the required-effects filter. -/
theorem eligible_from_subset {attack : weakpoint_attack} {rng : rand_source} :
    ∀ {i : Nat} {l : List weakpoint} {wp : weakpoint},
      wp ∈ eligible_from attack rng i l →
      wp ∈ l ∧ wp.eligible attack = true := by
  intro i l
  induction l generalizing i with
  | nil =>
    intro wp h
    simp [eligible_from] at h
  | cons hd tl ih =>
    intro wp h
    simp only [eligible_from] at h
    by_cases hc : (hd.eligible attack && hd.gate_passes attack (rng.gate_roll i)) = true
    · rw [if_pos hc] at h
      rcases List.mem_cons.mp h with h1 | h2
      · subst h1
        exact ⟨List.mem_cons_self _ _, (Bool.and_eq_true _ _ |>.mp hc).1⟩
      · obtain ⟨h3, h4⟩ := ih h2
        exact ⟨List.mem_cons_of_mem _ h3, h4⟩
    · rw [if_neg hc] at h
      obtain ⟨h3, h4⟩ := ih h
      exact ⟨List.mem_cons_of_mem _ h3, h4⟩

/-- If every weak point of the list fails the required-effects filter, nothing
survives filtering and gating. -/
theorem eligible_from_nil_of_filtered {attack : weakpoint_attack}
    {rng : rand_source} :
    ∀ {i : Nat} {l : List weakpoint},
      (∀ wp ∈ l, wp.eligible attack = false) →
      eligible_from attack rng i l = [] := by
  intro i l
  induction l generalizing i with
  | nil =>
    intro _
    rfl
  | cons hd tl ih =>
    intro h
    have hhd : hd.eligible attack = false := h hd (List.mem_cons_self _ _)
    simp only [eligible_from, hhd, Bool.false_and, if_false]
    exact ih fun wp hwp => h wp (List.mem_cons_of_mem _ hwp)

/-! ### Claim theorems -/

/-- Claim C1: for every attack descriptor and every random source,
`select_weakpoint` on a set whose `weakpoint_list` is empty returns the set's
internal default weak point; more generally, whenever no listed weak point
remains eligible after filtering and gating, or the weighted draw's total
weight does not consume the full probability space up to the draw roll,
`select_weakpoint` returns the default weak point rather than failing. -/
theorem C1_select_weakpoint_default_fallback (wps : weakpoints)
    (attack : weakpoint_attack) (rng : rand_source) :
    (wps.weakpoint_list = [] →
       wps.select_weakpoint attack rng = wps.default_weakpoint) ∧
    (wps.eligible_list attack rng = [] →
       wps.select_weakpoint attack rng = wps.default_weakpoint) ∧
    ((∀ wp ∈ wps.eligible_list attack rng, 0 ≤ wp.hit_chance attack) →
       ((wps.eligible_list attack rng).map fun wp => wp.hit_chance attack).sum ≤
         rng.draw_roll →
       wps.select_weakpoint attack rng = wps.default_weakpoint) := by
  refine ⟨?_, ?_, ?_⟩
  · intro h
    unfold weakpoints.select_weakpoint weakpoints.eligible_list
    rw [h]
    rfl
  · intro h
    unfold weakpoints.select_weakpoint
    rw [h]
    rfl
  · intro hnn hsum
    unfold weakpoints.select_weakpoint
    rw [select_draw_none hnn hsum]
    rfl

/-- Witness for C1: the empty concrete set `wps0` yields its default weak
point for the concrete attack `attack0` and random source `rng0`. -/
theorem C1_select_weakpoint_default_fallback_witness :
    wps0.select_weakpoint attack0 rng0 = wps0.default_weakpoint :=
  (C1_select_weakpoint_default_fallback wps0 attack0 rng0).1 rfl

/-- Claim C2: for every weakpoints set, attack and random source,
`select_weakpoint` never returns a listed weak point that has a required
effect the attack's target does not currently have: any returned weak point
is the default or has all its `required_effects` present on the target, and
if every listed weak point fails the filter only the default weak point can
be returned. -/
theorem C2_required_effects_exclusion (wps : weakpoints)
    (attack : weakpoint_attack) (rng : rand_source) :
    (∀ wp : weakpoint, wps.select_weakpoint attack rng = wp →
       wp = wps.default_weakpoint ∨
         ∀ e ∈ wp.required_effects, e ∈ attack.target.effects) ∧
    ((∀ wp ∈ wps.weakpoint_list, ∃ e ∈ wp.required_effects,
        e ∉ attack.target.effects) →
       wps.select_weakpoint attack rng = wps.default_weakpoint) := by
  constructor
  · intro wp hsel
    unfold weakpoints.select_weakpoint at hsel
    cases hdraw : select_draw attack (wps.eligible_list attack rng) rng.draw_roll with
    | none =>
      rw [hdraw] at hsel
      exact Or.inl hsel.symm
    | some w =>
      rw [hdraw] at hsel
      simp only [Option.getD_some] at hsel
      subst hsel
      have hmem : w ∈ eligible_from attack rng 0 wps.weakpoint_list :=
        select_draw_mem hdraw
      have h2 : w.eligible attack = true := (eligible_from_subset hmem).2
      have h3 : decide (∀ e ∈ w.required_effects, e ∈ attack.target.effects) = true := h2
      exact Or.inr (of_decide_eq_true h3)
  · intro h
    have hnil : wps.eligible_list attack rng = [] := by
      show eligible_from attack rng 0 wps.weakpoint_list = []
      apply eligible_from_nil_of_filtered
      intro wp hwp
      obtain ⟨e, he, hne⟩ := h wp hwp
      unfold weakpoint.eligible
      rw [decide_eq_false_iff_not]
      push_neg
      exact ⟨e, he, hne⟩
    unfold weakpoints.select_weakpoint
    rw [hnil]
    rfl

/-- Witness for C2: a concrete set whose one weak point requires "bleeding"
on a target that only has "downed" yields the default weak point. -/
theorem C2_required_effects_exclusion_witness :
    wps_bleed.select_weakpoint attack0 rng0 = wps_bleed.default_weakpoint :=
  (C2_required_effects_exclusion wps_bleed attack0 rng0).2 (by decide)

/-- Claim C3: a weak point with zero coverage has hit chance 0 for every
attack, the weighted draw of `select_weakpoint` never selects it for any
non-negative draw roll (regardless of the difficulty gate outcome, which is
quantified over all random sources), and a zero-coverage definition is
accepted at load rather than rejected. -/
theorem C3_zero_coverage_never_selected (wps : weakpoints)
    (attack : weakpoint_attack) (rng : rand_source) (wp : weakpoint) :
    (wp.coverage = 0 → wp.hit_chance attack = 0) ∧
    (0 ≤ rng.draw_roll → wp.coverage = 0 →
       select_draw attack (wps.eligible_list attack rng) rng.draw_roll ≠ some wp) ∧
    (∀ jo : weakpoint_def, jo.coverage = some 0 →
       (weakpoint.load jo).coverage = 0) := by
  refine ⟨?_, ?_, ?_⟩
  · intro h
    simp [weakpoint.hit_chance, h]
  · intro h0 hcov hdraw
    have h1 : wp.hit_chance attack = 0 := by
      simp [weakpoint.hit_chance, hcov]
    have h2 := select_draw_pos h0 hdraw
    rw [h1] at h2
    exact lt_irrefl 0 h2
  · intro jo h
    simp [weakpoint.load, h]

/-- Witness for C3: the concrete zero-coverage weak point `wp_zero` has hit
chance 0 under `attack0`, is never produced by the weighted draw of the
concrete set `wps_zero` at the concrete roll of `rng0`, and its definition
loads with coverage 0. -/
theorem C3_zero_coverage_never_selected_witness :
    wp_zero.hit_chance attack0 = 0 ∧
    select_draw attack0 (wps_zero.eligible_list attack0 rng0) rng0.draw_roll ≠
      some wp_zero ∧
    (weakpoint.load wp_def_zero).coverage = 0 :=
  ⟨(C3_zero_coverage_never_selected wps_zero attack0 rng0 wp_zero).1 (by decide),
   (C3_zero_coverage_never_selected wps_zero attack0 rng0 wp_zero).2.1
     (by decide) (by decide),
   (C3_zero_coverage_never_selected wps_zero attack0 rng0 wp_zero).2.2
     wp_def_zero (by decide)⟩

/-- Claim C4: `apply_to` on a damage instance with `is_crit = true` multiplies
each sub-instance's amount by `crit_mult` of its type and never consults
`damage_mult` (two weak points agreeing on `crit_mult` produce identical
critical results), and with `is_crit = false` multiplies by `damage_mult` and
never consults `crit_mult`. -/
theorem C4_crit_mult_exclusive (wp wp1 wp2 : weakpoint)
    (damage : damage_instance) :
    wp.apply_to_damage damage true =
      (damage.map fun du => { du with amount := du.amount * wp.crit_mult du.type }) ∧
    wp.apply_to_damage damage false =
      (damage.map fun du => { du with amount := du.amount * wp.damage_mult du.type }) ∧
    (wp1.crit_mult = wp2.crit_mult →
       wp1.apply_to_damage damage true = wp2.apply_to_damage damage true) ∧
    (wp1.damage_mult = wp2.damage_mult →
       wp1.apply_to_damage damage false = wp2.apply_to_damage damage false) := by
  refine ⟨rfl, rfl, ?_, ?_⟩
  · intro h
    simp [weakpoint.apply_to_damage, h]
  · intro h
    simp [weakpoint.apply_to_damage, h]

/-- Witness for C4: the concrete weak points `wpA` and `wpB` share `crit_mult`
but have different `damage_mult`, and their critical applications to the
concrete damage instance coincide. -/
theorem C4_crit_mult_exclusive_witness :
    wpA.apply_to_damage damage0 true = wpB.apply_to_damage damage0 true :=
  (C4_crit_mult_exclusive wpA wpA wpB damage0).2.2.1 rfl

/-- Claim C5: `apply_to` on resistances sets each per-damage-type resistance
to the old resistance times `armor_mult` minus `armor_penalty`, clamped to be
non-negative, so no per-type resistance of the result is negative. -/
theorem C5_armor_apply_clamped (wp : weakpoint) (r : resistances)
    (dt : DamageType) :
    (wp.apply_to_res r).resist_vals dt =
      max 0 (r.resist_vals dt * wp.armor_mult dt - wp.armor_penalty dt) ∧
    0 ≤ (wp.apply_to_res r).resist_vals dt :=
  ⟨rfl, le_max_left 0 _⟩

/-- Claim C6: when the damage fraction `total_damage / max_health` falls
outside `[damage_required.min, damage_required.max]`, a weak-point effect's
`apply_to` adds no effect to the target, deterministically for every chance,
duration and intensity roll: the call is a silent no-op that mutates no
state. -/
theorem C6_effect_damage_gate (e : weakpoint_effect) (target : Creature)
    (total_damage : Int) (attack : weakpoint_attack) (chance_roll : Rat)
    (dur_roll int_roll : Int)
    (h : (total_damage : Rat) / target.max_health < e.damage_required.1 ∨
         e.damage_required.2 < (total_damage : Rat) / target.max_health) :
    e.apply_to target total_damage attack chance_roll dur_roll int_roll = none := by
  unfold weakpoint_effect.apply_to
  rw [if_pos h]

/-- Witness for C6: the concrete effect `effect0` requires a damage fraction
in [1/2, 1]; 10 damage against the 100-max-health `creature0` is a fraction of
1/10, so nothing is applied even with a certain chance roll. -/
theorem C6_effect_damage_gate_witness :
    effect0.apply_to creature0 10 attack0 0 1 1 = none :=
  C6_effect_damage_gate effect0 creature0 10 attack0 0 1 1
    (Or.inl (by norm_num [creature0, effect0]))

/-- The fold of the family-set modifier equals the starting value plus the sum
of the per-family modifiers. -/
theorem modifier_foldl_eq_sum (attacker : Character) :
    ∀ (l : List weakpoint_family) (a : Rat),
      l.foldl (fun acc f => acc + f.modifier attacker) a =
        a + (l.map fun g => g.modifier attacker).sum := by
  intro l
  induction l with
  | nil =>
    intro a
    simp
  | cons hd tl ih =>
    intro a
    simp [ih, add_assoc]

/-- Claim C7: a single family's modifier is its bonus when the attacker holds
the family's proficiency and minus its penalty when not, an absent bonus or
penalty contributing 0 (`Option.getD 0`), and a family set's modifier is the
sum of the modifiers of its families. -/
theorem C7_family_modifier_sum (f : weakpoint_family) (attacker : Character)
    (fams : weakpoint_families) :
    (attacker.has_proficiency f.proficiency →
       f.modifier attacker = f.bonus.getD 0) ∧
    (¬ attacker.has_proficiency f.proficiency →
       f.modifier attacker = -(f.penalty.getD 0)) ∧
    fams.modifier attacker =
      (fams.families.map fun g => g.modifier attacker).sum := by
  refine ⟨?_, ?_, ?_⟩
  · intro h
    unfold weakpoint_family.modifier
    rw [if_pos h]
  · intro h
    unfold weakpoint_family.modifier
    rw [if_neg h]
  · unfold weakpoint_families.modifier
    rw [modifier_foldl_eq_sum attacker fams.families 0, zero_add]

/-- Witness for C7: `learner0` holds "p1", so the modifier of the concrete
family `family0` is its bonus 2. -/
theorem C7_family_modifier_sum_witness :
    family0.modifier learner0 = family0.bonus.getD 0 :=
  (C7_family_modifier_sum family0 learner0 fams0).1 (by decide)

/-- Claim C10: after `weakpoint::load` on a definition record that supplies a
name but no explicit id field, the loaded weak point's id equals its name, so
a loaded weak point with a non-empty name and defaulted id has a non-empty id
usable by `remove`. -/
theorem C10_load_id_defaults_to_name (jo : weakpoint_def) :
    (jo.id = none → (weakpoint.load jo).id = jo.name) ∧
    (jo.id = none → jo.name ≠ "" → (weakpoint.load jo).id ≠ "") := by
  constructor
  · intro h
    simp [weakpoint.load, h]
  · intro h hn
    simpa [weakpoint.load, h] using hn

/-- Witness for C10: the concrete definition `wp_def_eye` supplies the name
"eye" and no id; the loaded weak point's id is "eye" and is non-empty. -/
theorem C10_load_id_defaults_to_name_witness :
    (weakpoint.load wp_def_eye).id = wp_def_eye.name ∧
    (weakpoint.load wp_def_eye).id ≠ "" :=
  ⟨(C10_load_id_defaults_to_name wp_def_eye).1 rfl,
   (C10_load_id_defaults_to_name wp_def_eye).2 rfl (by decide)⟩

/-- Claim C8 counterexample: `load` followed by `remove` of the same id set
does not return the set to its pre-load state when a pre-existing weak point
shares an id with the loaded array.  Starting from the set `wps_a`, whose one
weak point has id "a", loading the definition array `[wp_def_a]` (id "a") and
removing the same array's id set deletes the pre-existing weak point too: the
remaining id list is empty while the pre-load id list is ["a"], so they are
not equal even up to permutation. -/
theorem C8_load_remove_counterexample :
    ¬ ((((wps_a.load [wp_def_a]).remove [wp_def_a]).weakpoint_list.map
          weakpoint.id).Perm
        (wps_a.weakpoint_list.map weakpoint.id)) := by
  intro h
  have hlen := h.length_eq
  simp [wps_a, wp_def_a, weakpoints.load, weakpoints.remove, removed_ids,
    weakpoint.load] at hlen

/-- Claim C8 (amended): for every weakpoints set and every definition array
whose ids are all fresh (no pre-existing weak point shares an id with the
array), performing `load` on that array followed by `remove` with the same id
set returns the weakpoints set to its pre-load state: the remaining list is
unchanged, hence its ids are equal under order-independent equality. -/
theorem C8_load_remove_roundtrip (wps : weakpoints) (ja : List weakpoint_def)
    (h : ∀ wp ∈ wps.weakpoint_list, wp.id ∉ removed_ids ja) :
    ((wps.load ja).remove ja).weakpoint_list = wps.weakpoint_list ∧
    ((((wps.load ja).remove ja).weakpoint_list.map weakpoint.id).Perm
      (wps.weakpoint_list.map weakpoint.id)) := by
  have hmain : ((wps.load ja).remove ja).weakpoint_list = wps.weakpoint_list := by
    show ((wps.weakpoint_list ++ ja.map weakpoint.load).filter
        fun wp => decide (wp.id ∉ removed_ids ja)) = wps.weakpoint_list
    rw [List.filter_append]
    have h1 : (wps.weakpoint_list.filter
        fun wp => decide (wp.id ∉ removed_ids ja)) = wps.weakpoint_list := by
      rw [List.filter_eq_self]
      intro wp hwp
      exact decide_eq_true (h wp hwp)
    have h2 : ((ja.map weakpoint.load).filter
        fun wp => decide (wp.id ∉ removed_ids ja)) = [] := by
      rw [List.filter_eq_nil_iff]
      intro wp hwp
      obtain ⟨jo, hjo, rfl⟩ := List.mem_map.mp hwp
      simp only [decide_eq_true_eq, not_not]
      exact List.mem_map_of_mem _ hjo
    rw [h1, h2, List.append_nil]
  exact ⟨hmain, by rw [hmain]⟩

/-- Witness for C8 (amended): the set `wps_b` (one weak point, id "b") loaded
with the array `[wp_def_a]` (id "a", fresh) and then stripped of the same id
set is returned to its pre-load state. -/
theorem C8_load_remove_roundtrip_witness :
    ((wps_b.load [wp_def_a]).remove [wp_def_a]).weakpoint_list =
      wps_b.weakpoint_list ∧
    ((((wps_b.load [wp_def_a]).remove [wp_def_a]).weakpoint_list.map
        weakpoint.id).Perm
      (wps_b.weakpoint_list.map weakpoint.id)) :=
  C8_load_remove_roundtrip wps_b [wp_def_a] (by decide)

/-! ### Helper lemmas about the practice fold -/

/-- A single family's practice either leaves the learner unchanged and reports
no learning, or the learner lacked the proficiency, newly learns it, and the
transition is reported. -/
theorem family_practice_cases (f : weakpoint_family) (learner : Character)
    (gain : String → Bool) :
    f.practice learner gain = (learner, false) ∨
      (¬ learner.has_proficiency f.proficiency ∧
        f.practice learner gain = (learner.learn f.proficiency, true)) := by
  unfold weakpoint_family.practice
  by_cases h1 : learner.has_proficiency f.proficiency
  · exact Or.inl (by rw [if_pos h1])
  · by_cases h2 : gain f.proficiency = true
    · exact Or.inr ⟨h1, by rw [if_neg h1, if_pos h2]⟩
    · exact Or.inl (by rw [if_neg h1, if_neg h2])

/-- Practicing one family on a learner who holds its proficiency is a no-op
that reports no learning. -/
theorem family_practice_of_held {f : weakpoint_family} {learner : Character}
    {gain : String → Bool} (h : learner.has_proficiency f.proficiency) :
    f.practice learner gain = (learner, false) := by
  unfold weakpoint_family.practice
  rw [if_pos h]

/-- Practicing one family never removes a held proficiency. -/
theorem family_practice_mono (f : weakpoint_family) (learner : Character)
    (gain : String → Bool) {p : String} (h : learner.has_proficiency p) :
    ((f.practice learner gain).1).has_proficiency p := by
  rcases family_practice_cases f learner gain with hc | ⟨_, hc⟩
  · rw [hc]
    exact h
  · rw [hc]
    exact List.mem_cons_of_mem _ h

/-- The practice fold is a no-op from any accumulator whose learner already
holds every proficiency of the remaining families. -/
theorem practice_foldl_held (gain : String → Bool) :
    ∀ (l : List weakpoint_family) (acc : Character × Bool),
      (∀ f ∈ l, acc.1.has_proficiency f.proficiency) →
      l.foldl (practice_step gain) acc = acc := by
  intro l
  induction l with
  | nil =>
    intro acc _
    rfl
  | cons hd tl ih =>
    intro acc h
    rw [List.foldl_cons]
    have hhd := @family_practice_of_held hd acc.1 gain (h hd (List.mem_cons_self _ _))
    have hstep : practice_step gain acc hd = acc := by
      unfold practice_step
      rw [hhd]
      simp
    rw [hstep]
    exact ih acc fun f hf => h f (List.mem_cons_of_mem _ hf)

/-- The practice fold never removes a held proficiency. -/
theorem practice_foldl_mono (gain : String → Bool) (p : String) :
    ∀ (l : List weakpoint_family) (acc : Character × Bool),
      acc.1.has_proficiency p →
      ((l.foldl (practice_step gain) acc).1).has_proficiency p := by
  intro l
  induction l with
  | nil =>
    intro acc h
    exact h
  | cons hd tl ih =>
    intro acc h
    rw [List.foldl_cons]
    exact ih _ (family_practice_mono hd acc.1 gain h)

/-- If the practice fold reports no learning, it leaves the accumulator
unchanged. -/
theorem practice_foldl_false (gain : String → Bool) :
    ∀ (l : List weakpoint_family) (acc : Character × Bool),
      (l.foldl (practice_step gain) acc).2 = false →
      l.foldl (practice_step gain) acc = acc := by
  intro l
  induction l with
  | nil =>
    intro acc _
    rfl
  | cons hd tl ih =>
    intro acc h
    rw [List.foldl_cons] at h ⊢
    have h2 := ih (practice_step gain acc hd) h
    rw [h2] at h ⊢
    rcases family_practice_cases hd acc.1 gain with hc | ⟨_, hc⟩
    · unfold practice_step
      rw [hc]
      simp
    · exfalso
      unfold practice_step at h
      rw [hc] at h
      simp at h

/-- If the practice fold reports learning, either the accumulator already
reported it or some proficiency transitioned from unlearned to learned. -/
theorem practice_foldl_true (gain : String → Bool) :
    ∀ (l : List weakpoint_family) (acc : Character × Bool),
      (l.foldl (practice_step gain) acc).2 = true →
      acc.2 = true ∨
        ∃ p, ¬ acc.1.has_proficiency p ∧
          ((l.foldl (practice_step gain) acc).1).has_proficiency p := by
  intro l
  induction l with
  | nil =>
    intro acc h
    exact Or.inl h
  | cons hd tl ih =>
    intro acc h
    rw [List.foldl_cons] at h ⊢
    rcases ih _ h with h1 | ⟨p, hp1, hp2⟩
    · rcases family_practice_cases hd acc.1 gain with hc | ⟨hnp, hc⟩
      · left
        have hs : (practice_step gain acc hd).2 = acc.2 := by
          unfold practice_step
          rw [hc]
          simp
        rw [hs] at h1
        exact h1
      · right
        refine ⟨hd.proficiency, hnp, ?_⟩
        exact practice_foldl_mono gain hd.proficiency tl _
          (by unfold practice_step; rw [hc]; exact List.mem_cons_self _ _)
    · right
      refine ⟨p, ?_, hp2⟩
      intro hmem
      exact hp1 (family_practice_mono hd acc.1 gain hmem)

/-- Claim C9: practicing a family set on a learner who already holds every
proficiency in the set returns false and leaves the learner unchanged (so
repeated calls change nothing), and each practice variant (`practice`,
`practice_hit`, `practice_kill`, `practice_dissect`) returns true iff at least
one proficiency transitioned from unlearned to learned during the call. -/
theorem C9_practice_idempotent (fams : weakpoint_families) (learner : Character)
    (gain : String → Bool) :
    ((∀ f ∈ fams.families, learner.has_proficiency f.proficiency) →
       fams.practice_hit learner gain = (learner, false)) ∧
    ((fams.practice learner gain).2 = true ↔
       ∃ p, ¬ learner.has_proficiency p ∧
         ((fams.practice learner gain).1).has_proficiency p) ∧
    ((fams.practice_hit learner gain).2 = true ↔
       ∃ p, ¬ learner.has_proficiency p ∧
         ((fams.practice_hit learner gain).1).has_proficiency p) ∧
    ((fams.practice_kill learner gain).2 = true ↔
       ∃ p, ¬ learner.has_proficiency p ∧
         ((fams.practice_kill learner gain).1).has_proficiency p) ∧
    ((fams.practice_dissect learner gain).2 = true ↔
       ∃ p, ¬ learner.has_proficiency p ∧
         ((fams.practice_dissect learner gain).1).has_proficiency p) := by
  have hcore : (fams.practice learner gain).2 = true ↔
      ∃ p, ¬ learner.has_proficiency p ∧
        ((fams.practice learner gain).1).has_proficiency p := by
    constructor
    · intro h
      rcases practice_foldl_true gain fams.families (learner, false) h with h1 | h1
      · exact absurd h1 Bool.false_ne_true
      · exact h1
    · rintro ⟨p, hp1, hp2⟩
      cases hb : (fams.practice learner gain).2 with
      | true =>
        rfl
      | false =>
        exfalso
        have h3 := practice_foldl_false gain fams.families (learner, false) hb
        have h4 : (fams.practice learner gain).1 = learner :=
          congrArg Prod.fst h3
        rw [h4] at hp2
        exact hp1 hp2
  have hheld : (∀ f ∈ fams.families, learner.has_proficiency f.proficiency) →
      fams.practice learner gain = (learner, false) := fun h =>
    practice_foldl_held gain fams.families (learner, false) h
  exact ⟨hheld, hcore, hcore, hcore, hcore⟩

/-- Witness for C9: `learner0` already holds the one proficiency "p1" of the
concrete family set `fams0`, so `practice_hit` reports no learning and leaves
the learner unchanged even with a gain draw that always fires. -/
theorem C9_practice_idempotent_witness :
    fams0.practice_hit learner0 (fun _ => true) = (learner0, false) :=
  (C9_practice_idempotent fams0 learner0 (fun _ => true)).1 (by decide)
